import Mathlib

/-!
Verification of the hook-dispatch protocol of a database driver proxy
(`shogo82148/go-sql-proxy`), as a shallow embedding in Lean.

The embedding follows the current-generation sources:
  * `conn.go` (`Conn.Ping`, `Conn.Close`, `Conn.BeginTx`, `Conn.ExecContext`,
    `Conn.QueryContext`), `conn_go110.go` (`Conn.ResetSession`),
  * the hooks file (`hooks` interface, `HooksContext` per-operation
    dispatch methods, `multipleHooks.preDo/do/postDo`,
    `namedValuesToValues`, `valuesToNamedValues`, `WithHooks`),
  * the proxy file (`Proxy`, `NewProxyContext`, `Proxy.getHooks`,
    `Proxy.Open`),
  * the transaction file (`Tx.Commit`, `Tx.Rollback`, context-capturing
    version).

Go `error` values are modelled as `Option Err` (with `none` = `nil`);
Go `interface{}` per-call context values as `GoVal`; a Go panic (array
index out of range) as an `Option`-level `none` of a whole wrapper call.
Each wrapper call additionally produces a list of observation `Event`s:
one event per user-callback invocation and per underlying engine call,
in execution order.  Deferred `postXxx` calls are modelled at every
return point of the Go function with the value the local `err` variable
holds there (note: Go's `return nil, freshErr` does *not* assign the
local `err` that the deferred closure reads).
-/

namespace SqlProxy

/-- Distinguished error values appearing in the proxy sources, plus
opaque user/engine errors.  `errSkip` is `driver.ErrSkip`; `canceled`
is `ctx.Err()`; `isolation`/`readOnly` are the two
"driver does not support ..." errors from `Conn.BeginTx`; `named` is
"proxy: driver does not support the use of Named Parameters";
`invalidCtx` is "invalid context type" from `multipleHooks.do/postDo`. -/
inductive Err where
  | errSkip
  | canceled
  | isolation
  | readOnly
  | named
  | invalidCtx
  | hook (n : Nat)
  | engine (n : Nat)
  deriving DecidableEq, Repr

/-- Intercepted operation kinds. -/
inductive Op where
  | openConn
  | ping
  | exec
  | query
  | begin
  | commit
  | rollback
  | close
  | resetSession
  deriving DecidableEq, Repr

/-- Observable events of one wrapper call: hook-callback invocations
(`pre`/`main`/`post` with the hook set's identifier), calls into the
wrapped engine, and resource cleanups performed by the wrapper
(`rows.Close()`, `tx.Rollback()`, `conn.Close()` on hook rejection). -/
inductive Event where
  | pre (id : Nat) (op : Op)
  | main (id : Nat) (op : Op)
  | post (id : Nat) (op : Op)
  | engineCall (op : Op)
  | rowsClose
  | txRollback
  | connClose
  deriving DecidableEq, Repr

/-- A Go `interface{}` per-call context value: `nil`, an opaque value,
or an `[]interface{}` slice (as built by `multipleHooks.preDo`). -/
inductive GoVal where
  | nil
  | box (n : Nat)
  | slice (l : List GoVal)

/-- Keep the first non-`none` option; this is the accumulation pattern
`if err0 != nil && err == nil { err = err0 }` of the Go sources. -/
def firstSome : Option Err → Option Err → Option Err
  | some e, _ => some e
  | none, e => e

/-- One hook set (a non-nil `*HooksContext` value), restricted to the
behaviour observable through the private `hooks` interface: for each
operation kind, the optional `Pre` callback (returning a per-call
context value and an error), the optional main callback (receiving the
per-call context) and the optional `Post` callback (receiving the
per-call context and the in-flight error).  `none` models a `nil`
callback field; the `h == nil || h.Xxx == nil` check of each
`HooksContext` dispatch method then yields `(nil, nil)` / `nil`.
`id` is an identifier used only to label trace events. -/
structure HookSet where
  id : Nat
  pre : Op → Option (GoVal × Option Err)
  main : Op → Option (GoVal → Option Err)
  post : Op → Option (GoVal → Option Err → Option Err)

/-- `HooksContext.preXxx`: nil-callback check, then the callback. -/
def HookSet.preOp (h : HookSet) (op : Op) : GoVal × Option Err × List Event :=
  match h.pre op with
  | none => (.nil, none, [])
  | some (v, e) => (v, e, [.pre h.id op])

/-- `HooksContext.xxx` (main hook): nil-callback check, then the callback. -/
def HookSet.mainOp (h : HookSet) (op : Op) (ctx : GoVal) : Option Err × List Event :=
  match h.main op with
  | none => (none, [])
  | some f => (f ctx, [.main h.id op])

/-- `HooksContext.postXxx`: nil-callback check, then the callback. -/
def HookSet.postOp (h : HookSet) (op : Op) (ctx : GoVal) (err : Option Err) :
    Option Err × List Event :=
  match h.post op with
  | none => (none, [])
  | some f => (f ctx err, [.post h.id op])

/-- `multipleHooks.preDo`: run every member's `pre` in registration
order, collect the per-member context values into an
`[]interface{}` slice, and keep the first error encountered
(`if err0 != nil && err == nil`). An empty chain returns `(nil, nil)`. -/
def multiPre (l : List HookSet) (op : Op) : GoVal × Option Err × List Event :=
  match l with
  | [] => (.nil, none, [])
  | _ =>
    let r := l.foldl
      (fun (acc : List GoVal × Option Err × List Event) hk =>
        let (v, e, ev) := hk.preOp op
        (acc.1 ++ [v], firstSome acc.2.1 e, acc.2.2 ++ ev))
      ([], none, [])
    (.slice r.1, r.2.1, r.2.2)

/-- Loop of `multipleHooks.do`: members in registration order, each
consuming its slot of the context slice, stopping at the first error.
`none` models the Go panic when the slice is shorter than the chain. -/
def mainLoop (op : Op) : List HookSet → List GoVal → Option (Option Err × List Event)
  | [], _ => some (none, [])
  | _ :: _, [] => none
  | hk :: rest, c :: cs =>
    let (e, ev) := hk.mainOp op c
    match e with
    | some err => some (some err, ev)
    | none =>
      match mainLoop op rest cs with
      | none => none
      | some (e2, ev2) => some (e2, ev ++ ev2)

/-- `multipleHooks.do`: empty-chain fast path, `[]interface{}` type
assertion (`invalid context type` on failure), then `mainLoop`. -/
def multiMain (l : List HookSet) (op : Op) (ctx : GoVal) :
    Option (Option Err × List Event) :=
  match l with
  | [] => some (none, [])
  | _ =>
    match ctx with
    | .slice sctx => mainLoop op l sctx
    | _ => some (some .invalidCtx, [])

/-- Loop of `multipleHooks.postDo` over the member/context pairs in
reverse registration order.  `err` is the in-flight error handed to
each callback (set to the first callback error if it was `nil`);
`reterr` is the value `postDo` returns: the first callback error
encountered while walking backward. -/
def postLoop (op : Op) : List (HookSet × GoVal) → Option Err → Option Err →
    Option Err × List Event
  | [], _, reterr => (reterr, [])
  | (hk, c) :: rest, err, reterr =>
    let (e0, ev) := hk.postOp op c err
    let r := postLoop op rest (firstSome err e0) (firstSome reterr e0)
    (r.1, ev ++ r.2)

/-- `multipleHooks.postDo`: empty-chain fast path, `[]interface{}` type
assertion, then the backward walk.  The walk starts at index
`len(h)-1`, so a context slice shorter than the chain panics (`none`)
immediately; a longer slice has its extra entries ignored. -/
def multiPost (l : List HookSet) (op : Op) (ctx : GoVal) (err : Option Err) :
    Option (Option Err × List Event) :=
  match l with
  | [] => some (none, [])
  | _ =>
    match ctx with
    | .slice sctx =>
      if sctx.length < l.length then none
      else some (postLoop op ((l.zip sctx).reverse) err none)
    | _ => some (some .invalidCtx, [])

/-- A value of the private `hooks` interface as held by a `Proxy` or
stored in a context: the nil interface, a single non-nil
`*HooksContext`, or a `multipleHooks` slice.  A nil `*HooksContext`
member inside `multipleHooks` behaves exactly like a hook set whose
callbacks are all `nil` (every dispatch method starts with
`h == nil || h.Xxx == nil`), so such members are represented by a
`HookSet` with all-`none` callbacks. -/
inductive HooksIface where
  | nil
  | single (h : HookSet)
  | multi (l : List HookSet)

/-- Dispatch of `preXxx` through the `hooks` interface.  The `nil`
case is unreachable from the wrappers (they check `hooks != nil`). -/
def HooksIface.preOp : HooksIface → Op → GoVal × Option Err × List Event
  | .nil, _ => (.nil, none, [])
  | .single h, op => h.preOp op
  | .multi l, op => multiPre l op

/-- Dispatch of the main hook through the `hooks` interface. -/
def HooksIface.mainOp : HooksIface → Op → GoVal → Option (Option Err × List Event)
  | .nil, _, _ => some (none, [])
  | .single h, op, c => some (h.mainOp op c)
  | .multi l, op, c => multiMain l op c

/-- Dispatch of `postXxx` through the `hooks` interface. -/
def HooksIface.postOp : HooksIface → Op → GoVal → Option Err →
    Option (Option Err × List Event)
  | .nil, _, _, _ => some (none, [])
  | .single h, op, c, e => some (h.postOp op c e)
  | .multi l, op, c, e => multiPost l op c e

/-- A named argument (`driver.NamedValue`): name, 1-based ordinal and
value.  Values are drawn from an arbitrary inhabited type whose
default element models Go's zero `driver.Value`. -/
structure NamedValue (α : Type) where
  Name : String
  Ordinal : Nat
  Value : α

/-- `namedValuesToValues`: allocate a zero slice of the same length,
place each argument at `Ordinal-1`, and report a
named-parameters-unsupported error if any name is non-empty.  The
boolean is `true` iff the Go function returns its non-nil error;
`none` models the panic on an out-of-range ordinal. -/
def namedValuesToValues {α : Type} [Inhabited α] (args : List (NamedValue α)) :
    Option (List α × Bool) :=
  args.foldlM
    (fun (acc : List α × Bool) arg =>
      if 1 ≤ arg.Ordinal ∧ arg.Ordinal - 1 < acc.1.length then
        some (acc.1.set (arg.Ordinal - 1) arg.Value, acc.2 || arg.Name.length > 0)
      else none)
    (List.replicate args.length default, false)

/-- `valuesToNamedValues`: ordinals `1..n`, empty names. -/
def valuesToNamedValues {α : Type} (vals : List α) : List (NamedValue α) :=
  vals.enum.map fun p => { Name := "", Ordinal := p.1 + 1, Value := p.2 }

/-- The behaviour of the wrapped engine for one call sequence: which
optional capabilities the underlying `driver.Driver`/`driver.Conn`/
`driver.Tx` implement, and the (handle, error) pair each operation
returns.  Handles (`driver.Conn`, `driver.Result`, `driver.Rows`,
`driver.Tx`) are opaque naturals. -/
structure Engine where
  openRes : Option Nat × Option Err
  hasPinger : Bool
  pingErr : Option Err
  hasExecer : Bool
  hasExecerContext : Bool
  execCtxRes : Option Nat × Option Err
  execRes : Option Nat × Option Err
  hasQueryer : Bool
  hasQueryerContext : Bool
  queryCtxRes : Option Nat × Option Err
  queryRes : Option Nat × Option Err
  hasBeginTx : Bool
  beginTxRes : Option Nat × Option Err
  beginRes : Option Nat × Option Err
  closeErr : Option Err
  hasSessionResetter : Bool
  resetErr : Option Err
  commitErr : Option Err
  rollbackErr : Option Err

/-- The hooks-relevant content of a `context.Context`:
either no hooks value is stored, or a typed-nil `*Hooks`/`*HooksContext`
pointer is stored (as `WithHooks(ctx)` with no arguments does), or a
`hooks` interface value is stored.  `hasDone` is whether `Done()`
returns a non-nil channel (i.e. the context differs from
`context.Background()` in `Conn.BeginTx`'s check); `doneAtPre` /
`doneAtPost` are the results of polling `<-c.Done()` immediately
before, respectively immediately after, the blocking fallback engine
call of the wrapper. -/
inductive Ambient where
  | absent
  | typedNil
  | set (h : HooksIface)

structure Ctx where
  ambient : Ambient
  hasDone : Bool
  doneAtPre : Bool
  doneAtPost : Bool

/-- `Proxy`: the wrapped driver's behaviour lives in `Engine`; the
construction-time hook chain is the private `hooks` field. -/
structure Proxy where
  hooks : HooksIface

/-- `NewProxyContext` (the `NewProxy` variant is identical):
zero sets → nil chain; exactly one non-nil set → used directly;
otherwise the non-nil sets are wrapped in `multipleHooks`.
`none` entries are nil `*HooksContext` arguments. -/
def NewProxyContext (hs : List (Option HookSet)) : Proxy :=
  match hs with
  | [] => { hooks := .nil }
  | [some h] => { hooks := .single h }
  | _ => { hooks := .multi (hs.filterMap id) }

/-- `Proxy.getHooks`: an ambient hooks value stored in the context
overrides the construction-time chain; a stored typed-nil
`*Hooks`/`*HooksContext` is normalised to the nil interface. -/
def Proxy.getHooks (p : Proxy) (c : Ctx) : HooksIface :=
  match c.ambient with
  | .absent => p.hooks
  | .typedNil => .nil
  | .set h => h

/-- `WithHooks`: no arguments stores a typed-nil `*HooksContext`
(which `getHooks` will treat as "no hooks"); one argument stores it
directly (a nil pointer again acts as typed-nil); two or more are
wrapped in `multipleHooks`, nil members included (they behave as
all-`none` hook sets, see `HooksIface`). -/
def WithHooks (c : Ctx) (hs : List (Option HookSet)) : Ctx :=
  match hs with
  | [] => { c with ambient := .typedNil }
  | [some h] => { c with ambient := .set (.single h) }
  | [none] => { c with ambient := .typedNil }
  | _ =>
    { c with ambient := .set (.multi (hs.map fun o =>
        o.getD ⟨0, fun _ => none, fun _ => none, fun _ => none⟩)) }

/-- Outcome of the engine phase of a wrapper (the part between the
`pre` hooks and the main hook):
  * `goPanic`: the Go code panics (out-of-range argument ordinal);
  * `earlyNil e`: the wrapper returns error `e` via a `return` that
    does not assign the local `err` variable, so the deferred `post`
    hook observes `err == nil`;
  * `engineDone res err ev`: the local `result`/`err` variables after
    the engine branch, with the engine events `ev`. -/
inductive EnginePhase where
  | goPanic
  | earlyNil (e : Err)
  | engineDone (res : Option Nat) (err : Option Err) (ev : List Event)

/-- Engine phase of `Conn.ExecContext`: context-aware path if the
connection implements `driver.ExecerContext`, otherwise poll the
context, convert the arguments (returning the named-parameters error,
or panicking on a bad ordinal), and call the blocking `Exec`. -/
def execEnginePhase {α : Type} [Inhabited α] (en : Engine) (c : Ctx)
    (args : List (NamedValue α)) : EnginePhase :=
  if en.hasExecerContext then
    .engineDone en.execCtxRes.1 en.execCtxRes.2 [.engineCall .exec]
  else if c.doneAtPre then .earlyNil .canceled
  else
    match namedValuesToValues args with
    | none => .goPanic
    | some (_, true) => .earlyNil .named
    | some (_, false) => .engineDone en.execRes.1 en.execRes.2 [.engineCall .exec]

/-- Engine phase of `Conn.QueryContext` (same shape as exec, against
the `driver.QueryerContext` capability). -/
def queryEnginePhase {α : Type} [Inhabited α] (en : Engine) (c : Ctx)
    (args : List (NamedValue α)) : EnginePhase :=
  if en.hasQueryerContext then
    .engineDone en.queryCtxRes.1 en.queryCtxRes.2 [.engineCall .query]
  else if c.doneAtPre then .earlyNil .canceled
  else
    match namedValuesToValues args with
    | none => .goPanic
    | some (_, true) => .earlyNil .named
    | some (_, false) => .engineDone en.queryRes.1 en.queryRes.2 [.engineCall .query]

/-- Transaction options (`driver.TxOptions`); isolation level `0` is
`sql.LevelDefault`. -/
structure TxOptions where
  isolation : Nat
  readOnly : Bool

/-- Engine phase of `Conn.BeginTx`: `driver.ConnBeginTx` if available;
otherwise reject non-default options under a cancellable context
(without touching the engine and without assigning the local `err`),
then call the blocking `Begin` and, on success, poll the context once
more, rolling the fresh transaction back if it is already done. -/
def beginEnginePhase (en : Engine) (c : Ctx) (opts : TxOptions) : EnginePhase :=
  if en.hasBeginTx then
    .engineDone en.beginTxRes.1 en.beginTxRes.2 [.engineCall .begin]
  else if c.hasDone ∧ opts.isolation ≠ 0 then .earlyNil .isolation
  else if c.hasDone ∧ opts.readOnly then .earlyNil .readOnly
  else
    match en.beginRes with
    | (tx, none) =>
      if c.doneAtPost then
        .engineDone tx (some .canceled) [.engineCall .begin, .txRollback]
      else .engineDone tx none [.engineCall .begin]
    | (tx, some e) => .engineDone tx (some e) [.engineCall .begin]

/-- `Conn.Ping` (`conn.go`): resolve hooks via `getHooks`, run `prePing`
(aborting on error), call the engine `Ping` only if the connection
implements `driver.Pinger` (returning its error directly), then the
main `Ping` hook, whose error is assigned to the local `err` and
returned; the deferred `postPing` runs at every return with the local
`err` (its own return value is discarded). -/
def Conn.Ping (p : Proxy) (en : Engine) (c : Ctx) : Option (Option Err × List Event) :=
  match p.getHooks c with
  | .nil =>
    if en.hasPinger then some (en.pingErr, [.engineCall .ping]) else some (none, [])
  | hks =>
    let (mctx, preErr, preEvs) := hks.preOp .ping
    match preErr with
    | some e =>
      match hks.postOp .ping mctx (some e) with
      | none => none
      | some (_, postEvs) => some (some e, preEvs ++ postEvs)
    | none =>
      let (engErr, engEvs) :=
        if en.hasPinger then (en.pingErr, [Event.engineCall .ping]) else (none, [])
      match engErr with
      | some e =>
        match hks.postOp .ping mctx (some e) with
        | none => none
        | some (_, postEvs) => some (some e, preEvs ++ engEvs ++ postEvs)
      | none =>
        match hks.mainOp .ping mctx with
        | none => none
        | some (mainErr, mainEvs) =>
          match hks.postOp .ping mctx mainErr with
          | none => none
          | some (_, postEvs) => some (mainErr, preEvs ++ engEvs ++ mainEvs ++ postEvs)

/-- `Conn.ResetSession` (`conn_go110.go`): identical shape to `Ping`
against the `driver.SessionResetter` capability. -/
def Conn.ResetSession (p : Proxy) (en : Engine) (c : Ctx) : Option (Option Err × List Event) :=
  match p.getHooks c with
  | .nil =>
    if en.hasSessionResetter then some (en.resetErr, [.engineCall .resetSession])
    else some (none, [])
  | hks =>
    let (mctx, preErr, preEvs) := hks.preOp .resetSession
    match preErr with
    | some e =>
      match hks.postOp .resetSession mctx (some e) with
      | none => none
      | some (_, postEvs) => some (some e, preEvs ++ postEvs)
    | none =>
      let (engErr, engEvs) :=
        if en.hasSessionResetter then (en.resetErr, [Event.engineCall .resetSession])
        else (none, [])
      match engErr with
      | some e =>
        match hks.postOp .resetSession mctx (some e) with
        | none => none
        | some (_, postEvs) => some (some e, preEvs ++ engEvs ++ postEvs)
      | none =>
        match hks.mainOp .resetSession mctx with
        | none => none
        | some (mainErr, mainEvs) =>
          match hks.postOp .resetSession mctx mainErr with
          | none => none
          | some (_, postEvs) => some (mainErr, preEvs ++ engEvs ++ mainEvs ++ postEvs)

/-- `Conn.Close` (`conn.go`): uses the construction-time `Proxy.hooks`
directly (no ambient lookup; the context is `context.Background()`).
The engine `Close` is always attempted; its error is returned as-is.
On engine success the main `Close` hook runs and its error is assigned
to the local `err`, which is what `Conn.Close` returns. -/
def Conn.Close (p : Proxy) (en : Engine) : Option (Option Err × List Event) :=
  match p.hooks with
  | .nil => some (en.closeErr, [.engineCall .close])
  | hks =>
    let (mctx, preErr, preEvs) := hks.preOp .close
    match preErr with
    | some e =>
      match hks.postOp .close mctx (some e) with
      | none => none
      | some (_, postEvs) => some (some e, preEvs ++ postEvs)
    | none =>
      match en.closeErr with
      | some e =>
        match hks.postOp .close mctx (some e) with
        | none => none
        | some (_, postEvs) => some (some e, preEvs ++ [.engineCall .close] ++ postEvs)
      | none =>
        match hks.mainOp .close mctx with
        | none => none
        | some (mainErr, mainEvs) =>
          match hks.postOp .close mctx mainErr with
          | none => none
          | some (_, postEvs) =>
            some (mainErr, preEvs ++ [.engineCall .close] ++ mainEvs ++ postEvs)

/-- `Tx.Commit` (context-capturing version): hooks are resolved from
the context captured at `begin` time.  On engine success the main
`Commit` hook's error is returned directly (`return hooks.commit(...)`)
without assigning the local `err`, so the deferred `postCommit`
observes `err == nil` in that case. -/
def Tx.Commit (p : Proxy) (en : Engine) (c : Ctx) : Option (Option Err × List Event) :=
  match p.getHooks c with
  | .nil => some (en.commitErr, [.engineCall .commit])
  | hks =>
    let (mctx, preErr, preEvs) := hks.preOp .commit
    match preErr with
    | some e =>
      match hks.postOp .commit mctx (some e) with
      | none => none
      | some (_, postEvs) => some (some e, preEvs ++ postEvs)
    | none =>
      match en.commitErr with
      | some e =>
        match hks.postOp .commit mctx (some e) with
        | none => none
        | some (_, postEvs) => some (some e, preEvs ++ [.engineCall .commit] ++ postEvs)
      | none =>
        match hks.mainOp .commit mctx with
        | none => none
        | some (mainErr, mainEvs) =>
          match hks.postOp .commit mctx none with
          | none => none
          | some (_, postEvs) =>
            some (mainErr, preEvs ++ [.engineCall .commit] ++ mainEvs ++ postEvs)

/-- `Tx.Rollback` (context-capturing version): same shape as `Commit`. -/
def Tx.Rollback (p : Proxy) (en : Engine) (c : Ctx) : Option (Option Err × List Event) :=
  match p.getHooks c with
  | .nil => some (en.rollbackErr, [.engineCall .rollback])
  | hks =>
    let (mctx, preErr, preEvs) := hks.preOp .rollback
    match preErr with
    | some e =>
      match hks.postOp .rollback mctx (some e) with
      | none => none
      | some (_, postEvs) => some (some e, preEvs ++ postEvs)
    | none =>
      match en.rollbackErr with
      | some e =>
        match hks.postOp .rollback mctx (some e) with
        | none => none
        | some (_, postEvs) => some (some e, preEvs ++ [.engineCall .rollback] ++ postEvs)
      | none =>
        match hks.mainOp .rollback mctx with
        | none => none
        | some (mainErr, mainEvs) =>
          match hks.postOp .rollback mctx none with
          | none => none
          | some (_, postEvs) =>
            some (mainErr, preEvs ++ [.engineCall .rollback] ++ mainEvs ++ postEvs)

/-- `Proxy.Open`: uses `Proxy.hooks` directly with a background
context.  On engine success the connection is wrapped; if the main
`Open` hook then fails, the fresh engine connection is closed
(`conn.Close()`) and the hook's error returned. -/
def Proxy.Open (p : Proxy) (en : Engine) : Option (Option Nat × Option Err × List Event) :=
  match p.hooks with
  | .nil =>
    match en.openRes with
    | (r, none) => some (r, none, [.engineCall .openConn])
    | (_, some e) => some (none, some e, [.engineCall .openConn])
  | hks =>
    let (mctx, preErr, preEvs) := hks.preOp .openConn
    match preErr with
    | some e =>
      match hks.postOp .openConn mctx (some e) with
      | none => none
      | some (_, postEvs) => some (none, some e, preEvs ++ postEvs)
    | none =>
      match en.openRes with
      | (_, some e) =>
        match hks.postOp .openConn mctx (some e) with
        | none => none
        | some (_, postEvs) =>
          some (none, some e, preEvs ++ [.engineCall .openConn] ++ postEvs)
      | (r, none) =>
        match hks.mainOp .openConn mctx with
        | none => none
        | some (mainErr, mainEvs) =>
          match hks.postOp .openConn mctx mainErr with
          | none => none
          | some (_, postEvs) =>
            match mainErr with
            | some e =>
              some (none, some e,
                preEvs ++ [.engineCall .openConn] ++ mainEvs ++ [.connClose] ++ postEvs)
            | none => some (r, none, preEvs ++ [.engineCall .openConn] ++ mainEvs ++ postEvs)

/-- `Conn.ExecContext` (`conn.go`): `driver.ErrSkip` if the connection
is no `driver.Execer`; then `preExec` (abort on error), the engine
phase (`execEnginePhase`), the main `Exec` hook on engine success
(its error replaces the successful result), with the deferred
`postExec` at every return. -/
def Conn.ExecContext {α : Type} [Inhabited α] (p : Proxy) (en : Engine) (c : Ctx)
    (args : List (NamedValue α)) : Option (Option Nat × Option Err × List Event) :=
  if ¬ en.hasExecer then some (none, some .errSkip, [])
  else
    match p.getHooks c with
    | .nil =>
      match execEnginePhase en c args with
      | .goPanic => none
      | .earlyNil e => some (none, some e, [])
      | .engineDone r err ev =>
        match err with
        | some e => some (none, some e, ev)
        | none => some (r, none, ev)
    | hks =>
      let (mctx, preErr, preEvs) := hks.preOp .exec
      match preErr with
      | some e =>
        match hks.postOp .exec mctx (some e) with
        | none => none
        | some (_, postEvs) => some (none, some e, preEvs ++ postEvs)
      | none =>
        match execEnginePhase en c args with
        | .goPanic => none
        | .earlyNil e =>
          match hks.postOp .exec mctx none with
          | none => none
          | some (_, postEvs) => some (none, some e, preEvs ++ postEvs)
        | .engineDone r err ev =>
          match err with
          | some e =>
            match hks.postOp .exec mctx (some e) with
            | none => none
            | some (_, postEvs) => some (none, some e, preEvs ++ ev ++ postEvs)
          | none =>
            match hks.mainOp .exec mctx with
            | none => none
            | some (mainErr, mainEvs) =>
              match hks.postOp .exec mctx mainErr with
              | none => none
              | some (_, postEvs) =>
                match mainErr with
                | some e => some (none, some e, preEvs ++ ev ++ mainEvs ++ postEvs)
                | none => some (r, none, preEvs ++ ev ++ mainEvs ++ postEvs)

/-- `Conn.QueryContext` (`conn.go`): like `ExecContext` against the
queryer capabilities; when the main `Query` hook fails after engine
success, the already-obtained rows are closed (`rows.Close()`) before
returning the hook's error. -/
def Conn.QueryContext {α : Type} [Inhabited α] (p : Proxy) (en : Engine) (c : Ctx)
    (args : List (NamedValue α)) : Option (Option Nat × Option Err × List Event) :=
  if ¬ en.hasQueryer then some (none, some .errSkip, [])
  else
    match p.getHooks c with
    | .nil =>
      match queryEnginePhase en c args with
      | .goPanic => none
      | .earlyNil e => some (none, some e, [])
      | .engineDone r err ev =>
        match err with
        | some e => some (none, some e, ev)
        | none => some (r, none, ev)
    | hks =>
      let (mctx, preErr, preEvs) := hks.preOp .query
      match preErr with
      | some e =>
        match hks.postOp .query mctx (some e) with
        | none => none
        | some (_, postEvs) => some (none, some e, preEvs ++ postEvs)
      | none =>
        match queryEnginePhase en c args with
        | .goPanic => none
        | .earlyNil e =>
          match hks.postOp .query mctx none with
          | none => none
          | some (_, postEvs) => some (none, some e, preEvs ++ postEvs)
        | .engineDone r err ev =>
          match err with
          | some e =>
            match hks.postOp .query mctx (some e) with
            | none => none
            | some (_, postEvs) => some (none, some e, preEvs ++ ev ++ postEvs)
          | none =>
            match hks.mainOp .query mctx with
            | none => none
            | some (mainErr, mainEvs) =>
              match hks.postOp .query mctx mainErr with
              | none => none
              | some (_, postEvs) =>
                match mainErr with
                | some e =>
                  some (none, some e, preEvs ++ ev ++ mainEvs ++ [.rowsClose] ++ postEvs)
                | none => some (r, none, preEvs ++ ev ++ mainEvs ++ postEvs)

/-- `Conn.BeginTx` (`conn.go`): `preBegin` (abort on error), the engine
phase (`beginEnginePhase`), then the main `Begin` hook on engine
success; if that hook fails the fresh transaction is rolled back and
the hook's error returned, otherwise the wrapped transaction. -/
def Conn.BeginTx (p : Proxy) (en : Engine) (c : Ctx) (opts : TxOptions) :
    Option (Option Nat × Option Err × List Event) :=
  match p.getHooks c with
  | .nil =>
    match beginEnginePhase en c opts with
    | .goPanic => none
    | .earlyNil e => some (none, some e, [])
    | .engineDone r err ev =>
      match err with
      | some e => some (none, some e, ev)
      | none => some (r, none, ev)
  | hks =>
    let (mctx, preErr, preEvs) := hks.preOp .begin
    match preErr with
    | some e =>
      match hks.postOp .begin mctx (some e) with
      | none => none
      | some (_, postEvs) => some (none, some e, preEvs ++ postEvs)
    | none =>
      match beginEnginePhase en c opts with
      | .goPanic => none
      | .earlyNil e =>
        match hks.postOp .begin mctx none with
        | none => none
        | some (_, postEvs) => some (none, some e, preEvs ++ postEvs)
      | .engineDone r err ev =>
        match err with
        | some e =>
          match hks.postOp .begin mctx (some e) with
          | none => none
          | some (_, postEvs) => some (none, some e, preEvs ++ ev ++ postEvs)
        | none =>
          match hks.mainOp .begin mctx with
          | none => none
          | some (mainErr, mainEvs) =>
            match hks.postOp .begin mctx mainErr with
            | none => none
            | some (_, postEvs) =>
              match mainErr with
              | some e =>
                some (none, some e, preEvs ++ ev ++ mainEvs ++ [.txRollback] ++ postEvs)
              | none => some (r, none, preEvs ++ ev ++ mainEvs ++ postEvs)

/-! ### Derived observation helpers and concrete fixtures -/

/-- The hook-callback events of a trace (engine calls and resource
cleanups filtered out). -/
def hookEvents (tr : List Event) : List Event :=
  tr.filter fun e =>
    match e with
    | .pre _ _ => true
    | .main _ _ => true
    | .post _ _ => true
    | _ => false

/-- The per-call context values `preDo` collects for a chain. -/
def preCtxs (l : List HookSet) (op : Op) : List GoVal :=
  l.map fun h => (h.preOp op).1

/-- The error `preDo` keeps: the first member `pre` error in
registration order. -/
def preErrList (l : List HookSet) (op : Op) : Option Err :=
  l.foldl (fun a h => firstSome a (h.preOp op).2.1) none

/-- The events of the `pre` phase of a chain, in registration order. -/
def preEvList (l : List HookSet) (op : Op) : List Event :=
  (l.map fun h => (h.preOp op).2.2).flatten

/-- The (at most one) event a member's `postXxx` dispatch emits; it
does not depend on the callback's arguments. -/
def evsOf (op : Op) (h : HookSet) : List Event :=
  match h.post op with
  | none => []
  | some _ => [Event.post h.id op]

/-- The events of the `postAlways` phase of a chain: one event per
member with a defined `post` callback, in reverse registration order. -/
def postEvList (l : List HookSet) (op : Op) : List Event :=
  ((l.map (evsOf op)).reverse).flatten

/-- Standard Go driver convention: an operation that reports an error
returns no handle alongside it. -/
def Engine.wellFormed (en : Engine) : Prop :=
  (en.openRes.2.isSome → en.openRes.1 = none) ∧
  (en.execCtxRes.2.isSome → en.execCtxRes.1 = none) ∧
  (en.execRes.2.isSome → en.execRes.1 = none) ∧
  (en.queryCtxRes.2.isSome → en.queryCtxRes.1 = none) ∧
  (en.queryRes.2.isSome → en.queryRes.1 = none) ∧
  (en.beginTxRes.2.isSome → en.beginTxRes.1 = none) ∧
  (en.beginRes.2.isSome → en.beginRes.1 = none)

/-- A fully capable engine for which every operation succeeds. -/
def baseEngine : Engine where
  openRes := (some 1, none)
  hasPinger := true
  pingErr := none
  hasExecer := true
  hasExecerContext := true
  execCtxRes := (some 2, none)
  execRes := (some 3, none)
  hasQueryer := true
  hasQueryerContext := true
  queryCtxRes := (some 4, none)
  queryRes := (some 5, none)
  hasBeginTx := true
  beginTxRes := (some 6, none)
  beginRes := (some 7, none)
  closeErr := none
  hasSessionResetter := true
  resetErr := none
  commitErr := none
  rollbackErr := none

/-- A background-style context carrying no ambient hooks. -/
def plainCtx : Ctx where
  ambient := .absent
  hasDone := false
  doneAtPre := false
  doneAtPost := false

/-- A context that is cancelled strictly after the blocking fallback
engine call returns (already done at the post-call poll, not at the
pre-call poll). -/
def lateCancelCtx : Ctx where
  ambient := .absent
  hasDone := true
  doneAtPre := false
  doneAtPost := true

/-- `baseEngine` downgraded to a connection without
`driver.QueryerContext` (blocking `Query` fallback path). -/
def legacyQueryEngine : Engine :=
  { baseEngine with hasQueryerContext := false }

/-- A hook set whose main `Close` hook always fails with `hook 7`. -/
def closeHookSet : HookSet where
  id := 1
  pre := fun _ => none
  main := fun op =>
    match op with
    | .close => some (fun _ => some (Err.hook 7))
    | _ => none
  post := fun _ => none

/-- Proxy built with the single hook set `closeHookSet`. -/
def closeProxy : Proxy := NewProxyContext [some closeHookSet]

/-- First member of a two-set chain; all `ping` callbacks defined and
succeeding. -/
def chainHookA : HookSet where
  id := 1
  pre := fun _ => some (GoVal.box 11, none)
  main := fun _ => some (fun _ => none)
  post := fun _ => some (fun _ _ => none)

/-- Second member of a two-set chain; all `ping` callbacks defined and
succeeding. -/
def chainHookB : HookSet where
  id := 2
  pre := fun _ => some (GoVal.box 22, none)
  main := fun _ => some (fun _ => none)
  post := fun _ => some (fun _ _ => none)

/-- Proxy with the two-member chain `[chainHookA, chainHookB]`. -/
def chainProxy : Proxy := NewProxyContext [some chainHookA, some chainHookB]

/-- First member of a chain whose `postPing` fails with `hook 6`. -/
def postErrHookA : HookSet where
  id := 1
  pre := fun _ => none
  main := fun _ => none
  post := fun op =>
    match op with
    | .ping => some (fun _ _ => some (Err.hook 6))
    | _ => none

/-- Second member of a chain whose `postPing` fails with `hook 5`. -/
def postErrHookB : HookSet where
  id := 2
  pre := fun _ => none
  main := fun _ => none
  post := fun op =>
    match op with
    | .ping => some (fun _ _ => some (Err.hook 5))
    | _ => none

/-- A hook set whose `pre` callbacks always fail with `hook 4`. -/
def preFailHookSet : HookSet where
  id := 4
  pre := fun _ => some (GoVal.nil, some (Err.hook 4))
  main := fun _ => none
  post := fun _ => none

/-- Proxy with the chain `[postErrHookA, postErrHookB]`. -/
def postErrProxy : Proxy := NewProxyContext [some postErrHookA, some postErrHookB]

/-- `baseEngine` without `driver.ConnBeginTx` (blocking `Begin`
fallback path). -/
def legacyBeginEngine : Engine :=
  { baseEngine with hasBeginTx := false }

/-- A cancellable (non-background) context that is never actually
cancelled and carries no ambient hooks. -/
def doneChanCtx : Ctx where
  ambient := .absent
  hasDone := true
  doneAtPre := false
  doneAtPost := false

/-- A hook set whose main `Exec` and `Query` hooks fail with `hook 9`. -/
def mainErrHookSet : HookSet where
  id := 3
  pre := fun _ => none
  main := fun op =>
    match op with
    | .exec => some (fun _ => some (Err.hook 9))
    | .query => some (fun _ => some (Err.hook 9))
    | _ => none
  post := fun _ => none

/-! ### Argument-conversion round trip -/

/-- Taking one more element of a list updated in place at the cut
point appends the new element. -/
lemma take_succ_set {α : Type} (acc : List α) (k : Nat) (v : α) (h : k < acc.length) :
    (acc.set k v).take (k + 1) = acc.take k ++ [v] := by
  induction acc generalizing k with
  | nil => simp at h
  | cons a as ih =>
    cases k with
    | zero => simp
    | succ k =>
      simp only [List.set_cons_succ, List.take_succ_cons, List.cons_append,
        List.cons.injEq, true_and]
      exact ih k (by simpa using h)

/-- The write-back loop of `namedValuesToValues`, run over arguments
with empty names and consecutive ordinals starting at `k+1`, fills the
accumulator from position `k` on with the original values. -/
lemma namedValuesToValues_loop {α : Type} [Inhabited α] (vs : List α) :
    ∀ (k : Nat) (acc : List α) (err : Bool), acc.length = k + vs.length →
      List.foldlM
        (fun (acc : List α × Bool) (arg : NamedValue α) =>
          if 1 ≤ arg.Ordinal ∧ arg.Ordinal - 1 < acc.1.length then
            some (acc.1.set (arg.Ordinal - 1) arg.Value, acc.2 || arg.Name.length > 0)
          else none)
        (acc, err)
        ((List.enumFrom k vs).map fun p =>
          ({ Name := "", Ordinal := p.1 + 1, Value := p.2 } : NamedValue α)) =
      some (acc.take k ++ vs, err) := by
  induction vs with
  | nil =>
    intro k acc err h
    simp only [List.length_nil, Nat.add_zero] at h
    simp [← h, List.take_length]
  | cons v vs ih =>
    intro k acc err h
    simp only [List.length_cons] at h
    have hk : k < acc.length := by omega
    have hstep : (1 ≤ k + 1 ∧ k + 1 - 1 < acc.length) := by omega
    simp only [List.enumFrom_cons, List.map_cons, List.foldlM_cons, hstep, if_pos,
      Nat.add_sub_cancel]
    have hlen : (acc.set k v).length = (k + 1) + vs.length := by
      simp [List.length_set]; omega
    have := ih (k + 1) (acc.set k v) (err || ("".length > 0)) hlen
    have herr : (err || decide ("".length > 0)) = err := by simp
    rw [herr] at this
    simp only [true_and, hk, if_true, Option.pure_def, Option.bind_eq_bind, Option.some_bind,
      herr]
    rw [this, take_succ_set acc k v hk]
    simp

/-- C10: converting positional values to named values and back returns
the original values with no error. -/
theorem namedValues_roundTrip {α : Type} [Inhabited α] (vs : List α) :
    namedValuesToValues (valuesToNamedValues vs) = some (vs, false) := by
  have hlen : (List.replicate (valuesToNamedValues vs).length (default : α)).length
      = 0 + vs.length := by
    simp [valuesToNamedValues]
  have := namedValuesToValues_loop vs 0 (List.replicate (valuesToNamedValues vs).length default)
    false hlen
  simpa [namedValuesToValues, valuesToNamedValues, List.enum] using this

/-! ### Ambient hook chains (C7) -/

/-- C7: an ambient hook chain attached to the call context replaces the
Proxy's construction-time chain (`getHooks` resolves identically for
any two proxies once `WithHooks` stored a value), and attaching an
ambient chain with zero hook sets suppresses instrumentation entirely:
`Conn.Ping` performs only the underlying engine call and returns its
error, with no hook invocation, even though the proxy may hold a
non-empty construction-time chain. -/
theorem ambient_chain_overrides (p q : Proxy) (en : Engine) (c : Ctx)
    (hs : List (Option HookSet)) :
    Proxy.getHooks p (WithHooks c hs) = Proxy.getHooks q (WithHooks c hs) ∧
    Conn.Ping p en (WithHooks c []) =
      (if en.hasPinger then some (en.pingErr, [Event.engineCall Op.ping])
       else some (none, [])) := by
  constructor
  · rcases hs with _ | ⟨o, _ | ⟨o2, t⟩⟩
    · rfl
    · cases o <;> rfl
    · cases o <;> cases o2 <;> rfl
  · rfl

/-! ### The close hook's error (C3) -/

/-- C3 counterexample: with a single hook set whose main `Close` hook
fails with `hook 7` and an engine whose `Close` succeeds, `Conn.Close`
returns the hook's error — not `nil` as the claim states. -/
theorem close_claim_counterexample :
    (Conn.Close closeProxy baseEngine).map Prod.fst = some (some (Err.hook 7)) ∧
    (Conn.Close closeProxy baseEngine).map Prod.fst ≠ some none := by
  exact ⟨by decide, by decide⟩

/-- C3 amended: when the underlying `Close` succeeds and the `pre`
hook raised no error, the error `Conn.Close` returns is exactly what
the main close hook returns (surfaced, not swallowed). -/
theorem close_main_hook_error_surfaced (h : HookSet) (en : Engine)
    (hce : en.closeErr = none) (hpre : (h.preOp Op.close).2.1 = none) :
    (Conn.Close { hooks := .single h } en).map Prod.fst =
      some (h.mainOp Op.close (h.preOp Op.close).1).1 := by
  rcases hp : h.preOp Op.close with ⟨mctx, preErr, preEvs⟩
  rw [hp] at hpre
  simp only at hpre
  subst hpre
  rcases hm : h.mainOp Op.close mctx with ⟨me, mevs⟩
  rcases hq : h.postOp Op.close mctx me with ⟨pe, pevs⟩
  simp [Conn.Close, HooksIface.preOp, HooksIface.mainOp, HooksIface.postOp, hp, hce, hm, hq]

/-- Witness for `close_main_hook_error_surfaced` at the concrete
fixture. -/
theorem close_main_hook_error_surfaced_witness :
    (Conn.Close { hooks := .single closeHookSet } baseEngine).map Prod.fst =
      some (closeHookSet.mainOp Op.close (closeHookSet.preOp Op.close).1).1 :=
  close_main_hook_error_surfaced closeHookSet baseEngine rfl rfl

/-! ### Legacy transaction options (C9) -/

/-- C9: on a driver without `driver.ConnBeginTx`, a non-default
isolation level or a read-only request under a cancellable context
makes `Conn.BeginTx` fail with the corresponding error and an empty
trace (the engine's `Begin` is never called); under a background-style
context the options are ignored and the engine's `Begin` is called,
its outcome passed through. -/
theorem beginTx_legacy_option_check (p : Proxy) (en : Engine) (c : Ctx) (opts : TxOptions)
    (hp : p.hooks = HooksIface.nil) (hamb : c.ambient = Ambient.absent)
    (hbt : en.hasBeginTx = false) :
    (c.hasDone = true → opts.isolation ≠ 0 →
      Conn.BeginTx p en c opts = some (none, some Err.isolation, [])) ∧
    (c.hasDone = true → opts.isolation = 0 → opts.readOnly = true →
      Conn.BeginTx p en c opts = some (none, some Err.readOnly, [])) ∧
    (c.hasDone = false → c.doneAtPost = false →
      Conn.BeginTx p en c opts =
        some (match en.beginRes with
          | (r, none) => (r, none, [Event.engineCall Op.begin])
          | (_, some e) => (none, some e, [Event.engineCall Op.begin]))) := by
  refine ⟨fun hd hiso => ?_, fun hd hiso hro => ?_, fun hd hdp => ?_⟩
  · simp [Conn.BeginTx, Proxy.getHooks, hamb, hp, beginEnginePhase, hbt, hd, hiso]
  · simp [Conn.BeginTx, Proxy.getHooks, hamb, hp, beginEnginePhase, hbt, hd, hiso, hro]
  · rcases hbr : en.beginRes with ⟨r, e⟩
    cases e <;>
      simp [Conn.BeginTx, Proxy.getHooks, hamb, hp, beginEnginePhase, hbt, hd, hdp, hbr]

/-- Witness for `beginTx_legacy_option_check`: both rejection branches
and the background passthrough at concrete inputs. -/
theorem beginTx_legacy_option_check_witness :
    Conn.BeginTx { hooks := .nil } legacyBeginEngine doneChanCtx ⟨1, false⟩ =
      some (none, some Err.isolation, []) ∧
    Conn.BeginTx { hooks := .nil } legacyBeginEngine doneChanCtx ⟨0, true⟩ =
      some (none, some Err.readOnly, []) ∧
    Conn.BeginTx { hooks := .nil } legacyBeginEngine plainCtx ⟨1, true⟩ =
      some (some 7, none, [Event.engineCall Op.begin]) := by
  refine ⟨?_, ?_, ?_⟩
  · exact (beginTx_legacy_option_check _ legacyBeginEngine doneChanCtx ⟨1, false⟩
      rfl rfl rfl).1 rfl (by decide)
  · exact (beginTx_legacy_option_check _ legacyBeginEngine doneChanCtx ⟨0, true⟩
      rfl rfl rfl).2.1 rfl rfl rfl
  · exact (beginTx_legacy_option_check _ legacyBeginEngine plainCtx ⟨1, true⟩
      rfl rfl rfl).2.2 rfl rfl

/-! ### Cancellation after a successful fallback call (C6) -/

/-- C6 counterexample: on a connection without `driver.QueryerContext`,
with the context cancelled strictly after the blocking `Query` returns
(done at the post-call instant, not at the pre-call poll),
`Conn.QueryContext` still returns the rows successfully: the
cancellation is not reported and no `rows.Close()` happens, contrary
to the claim. -/
theorem query_late_cancel_counterexample :
    Conn.QueryContext { hooks := .nil } legacyQueryEngine lateCancelCtx
        ([] : List (NamedValue Nat)) =
      some (some 5, none, [Event.engineCall Op.query]) ∧
    ∀ tr, Conn.QueryContext { hooks := .nil } legacyQueryEngine lateCancelCtx
        ([] : List (NamedValue Nat)) ≠ some (none, some Err.canceled, tr) := by
  have h1 : Conn.QueryContext { hooks := .nil } legacyQueryEngine lateCancelCtx
      ([] : List (NamedValue Nat)) =
      some (some 5, none, [Event.engineCall Op.query]) := by decide
  refine ⟨h1, fun tr h => ?_⟩
  rw [h1] at h
  simp at h

/-- C6 amended: the post-success cancellation check exists on the
`Conn.BeginTx` fallback — a context already done when the blocking
`Begin` returns yields the cancellation error and the fresh transaction
is rolled back — while the `Conn.QueryContext` fallback polls the
context only before the blocking call, so a cancellation arriving
during the call is not detected: the rows are returned and not
closed. -/
theorem fallback_cancel_after_success (p : Proxy) (en : Engine) (c : Ctx) (opts : TxOptions)
    (t r : Nat)
    (hp : p.hooks = HooksIface.nil) (hamb : c.ambient = Ambient.absent)
    (hdpre : c.doneAtPre = false) (hdpost : c.doneAtPost = true) :
    (en.hasBeginTx = false → opts.isolation = 0 → opts.readOnly = false →
      en.beginRes = (some t, none) →
      Conn.BeginTx p en c opts =
        some (none, some Err.canceled, [Event.engineCall Op.begin, Event.txRollback])) ∧
    (en.hasQueryer = true → en.hasQueryerContext = false → en.queryRes = (some r, none) →
      Conn.QueryContext p en c ([] : List (NamedValue Nat)) =
        some (some r, none, [Event.engineCall Op.query])) := by
  constructor
  · intro hbt hiso hro hbr
    simp [Conn.BeginTx, Proxy.getHooks, hamb, hp, beginEnginePhase, hbt, hiso, hro, hbr,
      hdpost]
  · intro hq hqc hqr
    simp [Conn.QueryContext, Proxy.getHooks, hamb, hp, queryEnginePhase, hq, hqc, hqr,
      hdpre, namedValuesToValues]

/-- Witness for `fallback_cancel_after_success` at concrete fixtures. -/
theorem fallback_cancel_after_success_witness :
    Conn.BeginTx { hooks := .nil } legacyBeginEngine lateCancelCtx ⟨0, false⟩ =
      some (none, some Err.canceled, [Event.engineCall Op.begin, Event.txRollback]) ∧
    Conn.QueryContext { hooks := .nil } legacyQueryEngine lateCancelCtx
        ([] : List (NamedValue Nat)) =
      some (some 5, none, [Event.engineCall Op.query]) := by
  constructor
  · exact (fallback_cancel_after_success _ legacyBeginEngine lateCancelCtx ⟨0, false⟩ 7 5
      rfl rfl rfl rfl).1 rfl rfl rfl rfl
  · exact (fallback_cancel_after_success _ legacyQueryEngine lateCancelCtx ⟨0, false⟩ 7 5
      rfl rfl rfl rfl).2 rfl rfl rfl

/-! ### Main-hook override on exec and query (C8) -/

/-- C8: on the context-aware exec/query paths, if the engine succeeds
but the main hook returns an error, the caller receives that error and
no result; for query, the already-obtained rows are closed
(`rows.Close()` appears in the trace) before returning. -/
theorem main_hook_error_overrides_success (h : HookSet) (en : Engine) (c : Ctx) (e : Err)
    (args : List (NamedValue Nat)) (p : Proxy)
    (hp : p.hooks = HooksIface.single h) (hamb : c.ambient = Ambient.absent)
    (hex : en.hasExecer = true) (hexc : en.hasExecerContext = true)
    (hq : en.hasQueryer = true) (hqc : en.hasQueryerContext = true)
    (hee : en.execCtxRes.2 = none) (hqe : en.queryCtxRes.2 = none)
    (hpreE : (h.preOp Op.exec).2.1 = none) (hpreQ : (h.preOp Op.query).2.1 = none)
    (hmE : (h.mainOp Op.exec (h.preOp Op.exec).1).1 = some e)
    (hmQ : (h.mainOp Op.query (h.preOp Op.query).1).1 = some e) :
    (∃ tr, Conn.ExecContext p en c args = some (none, some e, tr)) ∧
    (∃ tr, Conn.QueryContext p en c args = some (none, some e, tr) ∧
      Event.rowsClose ∈ tr) := by
  constructor
  · rcases hpE : h.preOp Op.exec with ⟨mctx, preErr, preEvs⟩
    rw [hpE] at hpreE hmE
    simp only at hpreE hmE
    subst hpreE
    rcases hmE2 : h.mainOp Op.exec mctx with ⟨me, mevs⟩
    rw [hmE2] at hmE
    simp only at hmE
    subst hmE
    rcases hqE : h.postOp Op.exec mctx (some e) with ⟨pe, pevs⟩
    refine ⟨preEvs ++ [Event.engineCall Op.exec] ++ mevs ++ pevs, ?_⟩
    simp [Conn.ExecContext, Proxy.getHooks, hamb, hp, execEnginePhase, hex, hexc,
      HooksIface.preOp, HooksIface.mainOp, HooksIface.postOp, hpE, hee, hmE2, hqE]
  · rcases hpQ : h.preOp Op.query with ⟨mctx, preErr, preEvs⟩
    rw [hpQ] at hpreQ hmQ
    simp only at hpreQ hmQ
    subst hpreQ
    rcases hmQ2 : h.mainOp Op.query mctx with ⟨me, mevs⟩
    rw [hmQ2] at hmQ
    simp only at hmQ
    subst hmQ
    rcases hqQ : h.postOp Op.query mctx (some e) with ⟨pe, pevs⟩
    refine ⟨preEvs ++ [Event.engineCall Op.query] ++ mevs ++ [Event.rowsClose] ++ pevs,
      ?_, by simp⟩
    simp [Conn.QueryContext, Proxy.getHooks, hamb, hp, queryEnginePhase, hq, hqc,
      HooksIface.preOp, HooksIface.mainOp, HooksIface.postOp, hpQ, hqe, hmQ2, hqQ]

/-- Witness for `main_hook_error_overrides_success` at the concrete
failing-main-hook fixture. -/
theorem main_hook_error_overrides_success_witness :
    (∃ tr, Conn.ExecContext { hooks := .single mainErrHookSet } baseEngine plainCtx
        ([] : List (NamedValue Nat)) = some (none, some (Err.hook 9), tr)) ∧
    (∃ tr, Conn.QueryContext { hooks := .single mainErrHookSet } baseEngine plainCtx
        ([] : List (NamedValue Nat)) = some (none, some (Err.hook 9), tr) ∧
      Event.rowsClose ∈ tr) :=
  main_hook_error_overrides_success mainErrHookSet baseEngine plainCtx (Err.hook 9) []
    { hooks := .single mainErrHookSet } rfl rfl rfl rfl rfl rfl rfl rfl rfl rfl
    (by decide) (by decide)

/-! ### No-op transparency (C1) -/

/-- C1: a proxy constructed with zero hook sets, called with no
ambient hook chain, is pure passthrough on every wrapper method: the
returned result and error are exactly those of the corresponding
underlying driver call, and the trace holds only the engine call — no
hook invocation occurs (hence no per-call context value is created,
those are only ever produced by `pre` callbacks).  Hypotheses restrict
to calls where the capability bridging itself is inert: the context is
not cancelled at either poll, the transaction options are default, and
the arguments convert cleanly for the legacy fallback. -/
theorem noop_transparency (p : Proxy) (en : Engine) (c : Ctx) (opts : TxOptions)
    (args : List (NamedValue Nat)) (dargs : List Nat)
    (hp : p = NewProxyContext []) (hamb : c.ambient = Ambient.absent)
    (h1 : c.doneAtPre = false) (h2 : c.doneAtPost = false)
    (hiso : opts.isolation = 0) (hro : opts.readOnly = false)
    (hargs : namedValuesToValues args = some (dargs, false))
    (hwf : en.wellFormed) :
    Proxy.Open p en = some (en.openRes.1, en.openRes.2, [Event.engineCall Op.openConn]) ∧
    Conn.Ping p en c = some ((if en.hasPinger then en.pingErr else none),
      (if en.hasPinger then [Event.engineCall Op.ping] else [])) ∧
    Conn.ResetSession p en c = some ((if en.hasSessionResetter then en.resetErr else none),
      (if en.hasSessionResetter then [Event.engineCall Op.resetSession] else [])) ∧
    Conn.Close p en = some (en.closeErr, [Event.engineCall Op.close]) ∧
    Tx.Commit p en c = some (en.commitErr, [Event.engineCall Op.commit]) ∧
    Tx.Rollback p en c = some (en.rollbackErr, [Event.engineCall Op.rollback]) ∧
    (en.hasExecer = true → Conn.ExecContext p en c args =
      some ((if en.hasExecerContext then en.execCtxRes.1 else en.execRes.1),
        (if en.hasExecerContext then en.execCtxRes.2 else en.execRes.2),
        [Event.engineCall Op.exec])) ∧
    (en.hasExecer = false →
      Conn.ExecContext p en c args = some (none, some Err.errSkip, [])) ∧
    (en.hasQueryer = true → Conn.QueryContext p en c args =
      some ((if en.hasQueryerContext then en.queryCtxRes.1 else en.queryRes.1),
        (if en.hasQueryerContext then en.queryCtxRes.2 else en.queryRes.2),
        [Event.engineCall Op.query])) ∧
    (en.hasQueryer = false →
      Conn.QueryContext p en c args = some (none, some Err.errSkip, [])) ∧
    Conn.BeginTx p en c opts =
      some ((if en.hasBeginTx then en.beginTxRes.1 else en.beginRes.1),
        (if en.hasBeginTx then en.beginTxRes.2 else en.beginRes.2),
        [Event.engineCall Op.begin]) := by
  obtain ⟨w1, w2, w3, w4, w5, w6, w7⟩ := hwf
  have hpnil : p.hooks = HooksIface.nil := by rw [hp]; rfl
  refine ⟨?_, ?_, ?_, ?_, ?_, ?_, ?_, ?_, ?_, ?_, ?_⟩
  · rcases ho : en.openRes with ⟨r, e⟩
    cases e with
    | none => simp [Proxy.Open, hpnil, ho]
    | some e0 =>
      have hr : r = none := by
        have := w1
        rw [ho] at this
        exact this rfl
      subst hr
      simp [Proxy.Open, hpnil, ho]
  · cases hpin : en.hasPinger <;>
      simp [Conn.Ping, Proxy.getHooks, hamb, hpnil, hpin]
  · cases hsr : en.hasSessionResetter <;>
      simp [Conn.ResetSession, Proxy.getHooks, hamb, hpnil, hsr]
  · simp [Conn.Close, hpnil]
  · simp [Tx.Commit, Proxy.getHooks, hamb, hpnil]
  · simp [Tx.Rollback, Proxy.getHooks, hamb, hpnil]
  · intro hex
    cases hexc : en.hasExecerContext with
    | true =>
      rcases he : en.execCtxRes with ⟨r, e⟩
      cases e with
      | none => simp [Conn.ExecContext, Proxy.getHooks, hamb, hpnil, hex, execEnginePhase,
          hexc, he]
      | some e0 =>
        have hr : r = none := by
          have := w2
          rw [he] at this
          exact this rfl
        subst hr
        simp [Conn.ExecContext, Proxy.getHooks, hamb, hpnil, hex, execEnginePhase, hexc, he]
    | false =>
      rcases he : en.execRes with ⟨r, e⟩
      cases e with
      | none => simp [Conn.ExecContext, Proxy.getHooks, hamb, hpnil, hex, execEnginePhase,
          hexc, he, h1, hargs]
      | some e0 =>
        have hr : r = none := by
          have := w3
          rw [he] at this
          exact this rfl
        subst hr
        simp [Conn.ExecContext, Proxy.getHooks, hamb, hpnil, hex, execEnginePhase, hexc,
          he, h1, hargs]
  · intro hex
    simp [Conn.ExecContext, hex]
  · intro hq
    cases hqc : en.hasQueryerContext with
    | true =>
      rcases he : en.queryCtxRes with ⟨r, e⟩
      cases e with
      | none => simp [Conn.QueryContext, Proxy.getHooks, hamb, hpnil, hq, queryEnginePhase,
          hqc, he]
      | some e0 =>
        have hr : r = none := by
          have := w4
          rw [he] at this
          exact this rfl
        subst hr
        simp [Conn.QueryContext, Proxy.getHooks, hamb, hpnil, hq, queryEnginePhase, hqc, he]
    | false =>
      rcases he : en.queryRes with ⟨r, e⟩
      cases e with
      | none => simp [Conn.QueryContext, Proxy.getHooks, hamb, hpnil, hq, queryEnginePhase,
          hqc, he, h1, hargs]
      | some e0 =>
        have hr : r = none := by
          have := w5
          rw [he] at this
          exact this rfl
        subst hr
        simp [Conn.QueryContext, Proxy.getHooks, hamb, hpnil, hq, queryEnginePhase, hqc,
          he, h1, hargs]
  · intro hq
    simp [Conn.QueryContext, hq]
  · cases hbt : en.hasBeginTx with
    | true =>
      rcases he : en.beginTxRes with ⟨r, e⟩
      cases e with
      | none => simp [Conn.BeginTx, Proxy.getHooks, hamb, hpnil, beginEnginePhase, hbt, he]
      | some e0 =>
        have hr : r = none := by
          have := w6
          rw [he] at this
          exact this rfl
        subst hr
        simp [Conn.BeginTx, Proxy.getHooks, hamb, hpnil, beginEnginePhase, hbt, he]
    | false =>
      rcases he : en.beginRes with ⟨r, e⟩
      cases e with
      | none => simp [Conn.BeginTx, Proxy.getHooks, hamb, hpnil, beginEnginePhase, hbt,
          he, hiso, hro, h2]
      | some e0 =>
        have hr : r = none := by
          have := w7
          rw [he] at this
          exact this rfl
        subst hr
        simp [Conn.BeginTx, Proxy.getHooks, hamb, hpnil, beginEnginePhase, hbt, he,
          hiso, hro, h2]

/-- Witness for `noop_transparency` on a concrete engine, context-aware
and legacy alike. -/
theorem noop_transparency_witness :
    Conn.ExecContext (NewProxyContext []) baseEngine plainCtx ([] : List (NamedValue Nat)) =
      some (some 2, none, [Event.engineCall Op.exec]) ∧
    Conn.QueryContext (NewProxyContext []) legacyQueryEngine plainCtx
        ([] : List (NamedValue Nat)) =
      some (some 5, none, [Event.engineCall Op.query]) ∧
    Conn.Ping (NewProxyContext []) baseEngine plainCtx =
      some (none, [Event.engineCall Op.ping]) := by
  have hbase := noop_transparency (NewProxyContext []) baseEngine plainCtx ⟨0, false⟩ [] []
    rfl rfl rfl rfl rfl rfl (by decide)
    (by refine ⟨?_, ?_, ?_, ?_, ?_, ?_, ?_⟩ <;> decide)
  have hleg := noop_transparency (NewProxyContext []) legacyQueryEngine plainCtx ⟨0, false⟩
    [] [] rfl rfl rfl rfl rfl rfl (by decide)
    (by refine ⟨?_, ?_, ?_, ?_, ?_, ?_, ?_⟩ <;> decide)
  refine ⟨?_, ?_, ?_⟩
  · simpa [baseEngine] using hbase.2.2.2.2.2.2.1 rfl
  · simpa [legacyQueryEngine, baseEngine] using hleg.2.2.2.2.2.2.2.2.1 rfl
  · simpa [baseEngine] using hbase.2.1

/-! ### Anatomy of the chain dispatch (`multipleHooks`) -/

/-- The `preDo` fold, fully characterised: contexts in registration
order, first error kept, events concatenated in order. -/
lemma multiPre_foldl (op : Op) (l : List HookSet) (cs : List GoVal) (er : Option Err)
    (evs : List Event) :
    l.foldl
      (fun (acc : List GoVal × Option Err × List Event) hk =>
        let (v, e, ev) := hk.preOp op
        (acc.1 ++ [v], firstSome acc.2.1 e, acc.2.2 ++ ev))
      (cs, er, evs) =
    (cs ++ preCtxs l op, l.foldl (fun a h => firstSome a (h.preOp op).2.1) er,
      evs ++ preEvList l op) := by
  induction l generalizing cs er evs with
  | nil => simp [preCtxs, preEvList]
  | cons h t ih =>
    rcases hpe : h.preOp op with ⟨v, e, ev⟩
    simp only [List.foldl_cons, hpe]
    rw [ih]
    simp [preCtxs, preEvList, hpe, List.append_assoc]

/-- `multipleHooks.preDo` on a non-empty chain. -/
lemma multiPre_eq (op : Op) (l : List HookSet) (hne : l ≠ []) :
    multiPre l op = (.slice (preCtxs l op), preErrList l op, preEvList l op) := by
  match l, hne with
  | h :: t, _ =>
    show (GoVal.slice _, _, _) = _
    rw [multiPre_foldl]
    simp [preErrList]

/-- Once the `preDo` fold holds an error, later members cannot change it. -/
lemma foldl_firstSome_absorb (f : HookSet → Option Err) (l : List HookSet) (e : Err) :
    l.foldl (fun a h => firstSome a (f h)) (some e) = some e := by
  induction l with
  | nil => rfl
  | cons h t ih => simpa [firstSome] using ih

/-- The error `preDo` keeps is the first failing member's, when all
earlier members succeed. -/
lemma preErrList_first_fail (op : Op) (l1 l2 : List HookSet) (hb : HookSet) (e : Err)
    (hok : ∀ h ∈ l1, (h.preOp op).2.1 = none) (hbad : (hb.preOp op).2.1 = some e) :
    preErrList (l1 ++ hb :: l2) op = some e := by
  induction l1 with
  | nil =>
    simp only [List.nil_append, preErrList, List.foldl_cons, hbad, firstSome]
    exact foldl_firstSome_absorb _ l2 e
  | cons h t ih =>
    have h0 := hok h (List.mem_cons_self h t)
    have ht := ih fun h' hm => hok h' (List.mem_cons_of_mem _ hm)
    simp only [preErrList, List.cons_append, List.foldl_cons, h0, firstSome] at ht ⊢
    exact ht

/-- `preDo` of a chain whose members all succeed reports no error. -/
lemma preErrList_all_none (op : Op) (l : List HookSet)
    (hok : ∀ h ∈ l, (h.preOp op).2.1 = none) : preErrList l op = none := by
  induction l with
  | nil => rfl
  | cons h t ih =>
    have h0 := hok h (List.mem_cons_self h t)
    have ht := ih fun h' hm => hok h' (List.mem_cons_of_mem _ hm)
    simp only [preErrList, List.foldl_cons, h0, firstSome] at ht ⊢
    exact ht

/-- Every `pre`-phase event is a `pre` event of the operation. -/
lemma preEvList_shape (op : Op) (l : List HookSet) :
    ∀ ev ∈ preEvList l op, ∃ i, ev = Event.pre i op := by
  intro ev hm
  simp only [preEvList, List.mem_flatten, List.mem_map] at hm
  obtain ⟨L, ⟨h, _, hL⟩, hev⟩ := hm
  subst hL
  rcases hpe : h.pre op with _ | ve
  · simp [HookSet.preOp, hpe] at hev
  · simp [HookSet.preOp, hpe] at hev
    exact ⟨h.id, hev⟩

/-- A hook set without a `pre` callback contributes a nil context, no
error and no event. -/
lemma preOp_undef (h : HookSet) (op : Op) (hu : h.pre op = none) :
    h.preOp op = (GoVal.nil, none, []) := by
  simp [HookSet.preOp, hu]

/-- The chain collects exactly one context value per member. -/
lemma preCtxs_length (l : List HookSet) (op : Op) : (preCtxs l op).length = l.length := by
  simp [preCtxs]

/-- The main-phase loop of a chain whose members define no main
callback reports no error and no event. -/
lemma mainLoop_all_none (op : Op) (l : List HookSet) (cs : List GoVal)
    (hm : ∀ h ∈ l, h.main op = none) (hlen : l.length ≤ cs.length) :
    mainLoop op l cs = some (none, []) := by
  induction l generalizing cs with
  | nil => rfl
  | cons h t ih =>
    cases cs with
    | nil => simp at hlen
    | cons cv cs' =>
      have h0 := hm h (List.mem_cons_self h t)
      have := ih cs' (fun h' hm' => hm h' (List.mem_cons_of_mem _ hm')) (by simpa using hlen)
      simp [mainLoop, HookSet.mainOp, h0, this]

/-- The events of the backward `postDo` loop do not depend on the
in-flight errors: one event per member with a defined `post`. -/
lemma postLoop_events (op : Op) (pairs : List (HookSet × GoVal)) :
    ∀ err reterr, (postLoop op pairs err reterr).2 =
      (pairs.map fun pc => evsOf op pc.1).flatten := by
  induction pairs with
  | nil => intro err reterr; rfl
  | cons pc rest ih =>
    intro err reterr
    rcases pc with ⟨hk, cv⟩
    rcases hq : hk.postOp op cv err with ⟨e0, ev⟩
    have hev : ev = evsOf op hk := by
      rcases hpo : hk.post op with _ | f <;>
        simp [HookSet.postOp, hpo] at hq <;> simp [evsOf, hpo, ← hq.2]
    simp [postLoop, hq, ih, hev]

/-- The error the backward `postDo` loop returns, for members whose
`post` callbacks return fixed errors `es` (in registration order of
`pairs`): the first non-nil among them, after the starting `reterr`. -/
lemma postLoop_const (op : Op) (pairs : List (HookSet × GoVal)) (es : List (Option Err))
    (h : pairs.map (fun pc => pc.1.post op) = es.map (fun e => some (fun _ _ => e))) :
    ∀ err reterr, (postLoop op pairs err reterr).1 = es.foldl firstSome reterr := by
  induction pairs generalizing es with
  | nil =>
    cases es with
    | nil => intro err reterr; rfl
    | cons e es' => simp at h
  | cons pc rest ih =>
    cases es with
    | nil => simp at h
    | cons e es' =>
      intro err reterr
      simp only [List.map_cons, List.cons.injEq] at h
      obtain ⟨h1, h2⟩ := h
      rcases pc with ⟨hk, cv⟩
      have hq : hk.postOp op cv err = (e, [Event.post hk.id op]) := by
        simp only at h1
        simp [HookSet.postOp, h1]
      simp only [postLoop, hq, List.foldl_cons]
      exact ih es' h2 _ _

/-- `multipleHooks.postDo` on a non-empty chain with a well-sized
context slice. -/
lemma multiPost_eq (op : Op) (l : List HookSet) (ctxs : List GoVal) (err : Option Err)
    (hne : l ≠ []) (hlen : ctxs.length = l.length) :
    multiPost l op (.slice ctxs) err =
      some (postLoop op ((l.zip ctxs).reverse) err none) := by
  match l, hne with
  | h :: t, _ => simp [multiPost, hlen]

/-- Projection of the reversed member/context pairs onto the members. -/
lemma zip_reverse_map_fst {β : Type} (l : List HookSet) (ctxs : List GoVal)
    (f : HookSet → β) (hlen : ctxs.length = l.length) :
    ((l.zip ctxs).reverse.map fun pc => f pc.1) = (l.map f).reverse := by
  rw [List.map_reverse]
  congr 1
  have : ((l.zip ctxs).map fun pc => f pc.1) = ((l.zip ctxs).map Prod.fst).map f := by
    simp [List.map_map]
  rw [this, List.map_fst_zip _ _ (le_of_eq hlen.symm)]

/-- Every `postDo`-phase event is a `post` event of the operation. -/
lemma postEv_shape (op : Op) (pairs : List (HookSet × GoVal)) (err reterr : Option Err) :
    ∀ ev ∈ (postLoop op pairs err reterr).2, ∃ i, ev = Event.post i op := by
  intro ev hm
  rw [postLoop_events] at hm
  simp only [List.mem_flatten, List.mem_map] at hm
  obtain ⟨L, ⟨pc, _, hL⟩, hev⟩ := hm
  subst hL
  rcases hpo : pc.1.post op with _ | f
  · simp [evsOf, hpo] at hev
  · simp [evsOf, hpo] at hev
    exact ⟨pc.1.id, hev⟩

/-- Flattening reversed singleton lists is reversal of the values. -/
lemma flatten_singletons_reverse {α β : Type} (l : List α) (f : α → β) :
    ((l.map fun a => [f a]).reverse).flatten = (l.map f).reverse := by
  induction l with
  | nil => rfl
  | cons a t ih => simp [ih]

/-- A chain whose members define no `pre` callback emits no `pre`
event. -/
lemma preEvList_all_undef (op : Op) (l : List HookSet)
    (h : ∀ h' ∈ l, h'.pre op = none) : preEvList l op = [] := by
  induction l with
  | nil => rfl
  | cons h0 t ih =>
    have h1 := h h0 (List.mem_cons_self h0 t)
    have h2 := ih fun h' hm => h h' (List.mem_cons_of_mem _ hm)
    simp only [preEvList, List.map_cons, List.flatten_cons] at h2 ⊢
    rw [preOp_undef h0 op h1]
    simpa using h2

/-- `multipleHooks.do` on a non-empty chain and a slice context. -/
lemma multiMain_eq (op : Op) (l : List HookSet) (ctxs : List GoVal) (hne : l ≠ []) :
    multiMain l op (.slice ctxs) = mainLoop op l ctxs := by
  match l, hne with
  | h :: t, _ => rfl

/-- Members whose `post` callbacks are the constant functions of `es`
each emit exactly their `post` event. -/
lemma map_evsOf_const (op : Op) (l : List HookSet) (es : List (Option Err))
    (h : l.map (fun h => h.post op) = es.map (fun e => some (fun _ _ => e))) :
    l.map (evsOf op) = l.map fun h => [Event.post h.id op] := by
  induction l generalizing es with
  | nil => rfl
  | cons h0 t ih =>
    cases es with
    | nil => simp at h
    | cons e es' =>
      simp only [List.map_cons, List.cons.injEq] at h
      obtain ⟨h1, h2⟩ := h
      simp [evsOf, h1, ih es' h2]

/-! ### Chain invocation order (C2) -/

/-- C2 counterexample: in the chain `[chainHookA, chainHookB]` with all
callbacks defined, a successful ping produces six hook invocations —
`main(B)` fires between `main(A)` and `postAlways(B)` — so the claimed
five-event order `pre(A), pre(B), main(A), postAlways(B), postAlways(A)`
is not the observed invocation order. -/
theorem chain_order_counterexample :
    (Conn.Ping chainProxy baseEngine plainCtx).map (fun r => hookEvents r.2) =
      some [Event.pre 1 Op.ping, Event.pre 2 Op.ping, Event.main 1 Op.ping,
        Event.main 2 Op.ping, Event.post 2 Op.ping, Event.post 1 Op.ping] ∧
    ([Event.pre 1 Op.ping, Event.pre 2 Op.ping, Event.main 1 Op.ping,
        Event.main 2 Op.ping, Event.post 2 Op.ping, Event.post 1 Op.ping] :
      List Event) ≠
      [Event.pre 1 Op.ping, Event.pre 2 Op.ping, Event.main 1 Op.ping,
        Event.post 2 Op.ping, Event.post 1 Op.ping] := by
  exact ⟨by decide, by decide⟩

/-- C2 amended: for a chain `[A, B]` with all callbacks defined and a
successful call, the observed invocation order is `pre(A), pre(B)`,
the engine call, `main(A), main(B), postAlways(B), postAlways(A)`:
`pre` and the main phase run members in registration order, the
`postAlways` phase in reverse registration order. -/
theorem chain_order_two_members (A B : HookSet) (en : Engine) (c : Ctx) (p : Proxy)
    (va vb : GoVal) (fA fB : GoVal → Option Err) (gA gB : GoVal → Option Err → Option Err)
    (hp : p.hooks = HooksIface.multi [A, B]) (hamb : c.ambient = Ambient.absent)
    (hpin : en.hasPinger = true) (heng : en.pingErr = none)
    (hpA : A.pre Op.ping = some (va, none)) (hpB : B.pre Op.ping = some (vb, none))
    (hmA : A.main Op.ping = some fA) (hmB : B.main Op.ping = some fB)
    (hfA : fA va = none) (hfB : fB vb = none)
    (hgA : A.post Op.ping = some gA) (hgB : B.post Op.ping = some gB) :
    Conn.Ping p en c =
      some (none,
        [Event.pre A.id Op.ping, Event.pre B.id Op.ping, Event.engineCall Op.ping,
         Event.main A.id Op.ping, Event.main B.id Op.ping,
         Event.post B.id Op.ping, Event.post A.id Op.ping]) := by
  simp [Conn.Ping, Proxy.getHooks, hamb, hp, hpin, heng, HooksIface.preOp,
    HooksIface.mainOp, HooksIface.postOp, multiPre, multiMain, multiPost, mainLoop,
    postLoop, HookSet.preOp, HookSet.mainOp, HookSet.postOp, hpA, hpB, hmA, hmB,
    hfA, hfB, hgA, hgB, firstSome]

/-- Witness for `chain_order_two_members` on the concrete two-member
chain. -/
theorem chain_order_two_members_witness :
    Conn.Ping chainProxy baseEngine plainCtx =
      some (none,
        [Event.pre 1 Op.ping, Event.pre 2 Op.ping, Event.engineCall Op.ping,
         Event.main 1 Op.ping, Event.main 2 Op.ping,
         Event.post 2 Op.ping, Event.post 1 Op.ping]) :=
  chain_order_two_members chainHookA chainHookB baseEngine plainCtx chainProxy
    (GoVal.box 11) (GoVal.box 22) (fun _ => none) (fun _ => none)
    (fun _ _ => none) (fun _ _ => none)
    rfl rfl rfl rfl rfl rfl rfl rfl rfl rfl rfl rfl

/-! ### Pre-rejection short circuit (C4) -/

/-- C4: with a non-empty chain in which every member before `hb`
passes `pre` and `hb`'s `pre` fails with `e`, `Conn.ExecContext`
returns `e` (the first `pre` error in registration order), the trace
holds no engine call at all, and `postAlways` still fires for every
earlier member that defines it. -/
theorem pre_error_short_circuit (p : Proxy) (en : Engine) (c : Ctx) (e : Err)
    (args : List (NamedValue Nat)) (l1 l2 : List HookSet) (hb : HookSet)
    (hp : p.hooks = HooksIface.multi (l1 ++ hb :: l2)) (hamb : c.ambient = Ambient.absent)
    (hex : en.hasExecer = true)
    (hok : ∀ h ∈ l1, (h.preOp Op.exec).2.1 = none)
    (hbad : (hb.preOp Op.exec).2.1 = some e) :
    ∃ tr, Conn.ExecContext p en c args = some (none, some e, tr) ∧
      (∀ op', Event.engineCall op' ∉ tr) ∧
      (∀ h ∈ l1, (h.post Op.exec).isSome → Event.post h.id Op.exec ∈ tr) := by
  set l := l1 ++ hb :: l2 with hl
  have hne : l ≠ [] := by simp [hl]
  have hpre : multiPre l Op.exec =
      (.slice (preCtxs l Op.exec), some e, preEvList l Op.exec) := by
    rw [multiPre_eq Op.exec l hne, preErrList_first_fail Op.exec l1 l2 hb e hok hbad]
  have hpost : multiPost l Op.exec (.slice (preCtxs l Op.exec)) (some e) =
      some (postLoop Op.exec ((l.zip (preCtxs l Op.exec)).reverse) (some e) none) :=
    multiPost_eq _ _ _ _ hne (preCtxs_length l Op.exec)
  refine ⟨preEvList l Op.exec ++
      (postLoop Op.exec ((l.zip (preCtxs l Op.exec)).reverse) (some e) none).2,
    ?_, ?_, ?_⟩
  · simp [Conn.ExecContext, Proxy.getHooks, hamb, hp, hex, HooksIface.preOp, hpre,
      HooksIface.postOp, hpost]
  · intro op' hmem
    rcases List.mem_append.mp hmem with hmem | hmem
    · obtain ⟨i, hi⟩ := preEvList_shape Op.exec l _ hmem
      simp at hi
    · obtain ⟨i, hi⟩ := postEv_shape Op.exec _ _ _ _ hmem
      simp at hi
  · intro h hmem hps
    apply List.mem_append_right
    rw [postLoop_events,
      zip_reverse_map_fst l (preCtxs l Op.exec) (evsOf Op.exec) (preCtxs_length l Op.exec),
      List.mem_flatten]
    refine ⟨evsOf Op.exec h, ?_, ?_⟩
    · rw [List.mem_reverse]
      exact List.mem_map_of_mem _ (by rw [hl]; exact List.mem_append_left _ hmem)
    · rcases hpo : h.post Op.exec with _ | f
      · rw [hpo] at hps; simp at hps
      · simp [evsOf, hpo]

/-- Witness for `pre_error_short_circuit` on the chain
`[chainHookA, preFailHookSet]`. -/
theorem pre_error_short_circuit_witness :
    ∃ tr, Conn.ExecContext { hooks := .multi [chainHookA, preFailHookSet] } baseEngine
        plainCtx ([] : List (NamedValue Nat)) = some (none, some (Err.hook 4), tr) ∧
      (∀ op', Event.engineCall op' ∉ tr) ∧
      (∀ h ∈ [chainHookA], (h.post Op.exec).isSome → Event.post h.id Op.exec ∈ tr) :=
  pre_error_short_circuit { hooks := .multi [chainHookA, preFailHookSet] } baseEngine
    plainCtx (Err.hook 4) [] [chainHookA] [] preFailHookSet rfl rfl rfl
    (by intro h hm; simp at hm; subst hm; rfl) rfl

/-! ### postAlways errors (C5) -/

/-- C5 counterexample: in the chain `[postErrHookA, postErrHookB]`
whose `postPing` callbacks fail with `hook 6` and `hook 5`, a
successful ping invokes both `postAlways` callbacks (in reverse order,
as the trace shows), and the first backward error `hook 5` is what
`postDo` computes — yet `Conn.Ping` returns `nil`: the wrappers discard
the deferred `postDo` result, so it is not "the error ultimately
returned for the operation" as the claim states. -/
theorem post_error_counterexample :
    Conn.Ping postErrProxy baseEngine plainCtx =
      some (none, [Event.engineCall Op.ping, Event.post 2 Op.ping, Event.post 1 Op.ping]) ∧
    (multiPost [postErrHookA, postErrHookB] Op.ping
        (GoVal.slice [GoVal.nil, GoVal.nil]) none).map Prod.fst =
      some (some (Err.hook 5)) := by
  exact ⟨by decide, by decide⟩

/-- C5 amended: for a non-empty chain whose members' `postAlways`
callbacks return the fixed errors `es`, on a successful ping every
member's `postAlways` is invoked, in reverse registration order, and
the value `postDo` returns is the first error encountered while
walking backward — but `Conn.Ping` itself returns `nil`: the deferred
`postDo` result is discarded, never surfaced to the caller. -/
theorem post_error_propagation (l : List HookSet) (es : List (Option Err)) (en : Engine)
    (c : Ctx) (p : Proxy)
    (hp : p.hooks = HooksIface.multi l) (hamb : c.ambient = Ambient.absent) (hne : l ≠ [])
    (hpin : en.hasPinger = true) (heng : en.pingErr = none)
    (hpre : ∀ h ∈ l, h.pre Op.ping = none) (hmain : ∀ h ∈ l, h.main Op.ping = none)
    (hposts : l.map (fun h => h.post Op.ping) = es.map (fun e => some (fun _ _ => e))) :
    Conn.Ping p en c =
      some (none, Event.engineCall Op.ping ::
        (l.map fun h => Event.post h.id Op.ping).reverse) ∧
    (multiPost l Op.ping (GoVal.slice (preCtxs l Op.ping)) none).map Prod.fst =
      some (es.reverse.foldl firstSome none) := by
  have hpre0 : ∀ h ∈ l, (h.preOp Op.ping).2.1 = none := by
    intro h hm
    rw [preOp_undef h Op.ping (hpre h hm)]
  have hpreEq : multiPre l Op.ping =
      (.slice (preCtxs l Op.ping), none, preEvList l Op.ping) := by
    rw [multiPre_eq Op.ping l hne, preErrList_all_none Op.ping l hpre0]
  have hevnil : preEvList l Op.ping = [] := preEvList_all_undef Op.ping l hpre
  have hmainEq : multiMain l Op.ping (.slice (preCtxs l Op.ping)) = some (none, []) := by
    rw [multiMain_eq Op.ping l _ hne]
    exact mainLoop_all_none Op.ping l _ hmain (le_of_eq (preCtxs_length l Op.ping).symm)
  have hpairs : ((l.zip (preCtxs l Op.ping)).reverse.map fun pc => pc.1.post Op.ping) =
      es.reverse.map (fun e => some (fun _ _ => e)) := by
    rw [zip_reverse_map_fst l (preCtxs l Op.ping) (fun h => h.post Op.ping)
      (preCtxs_length l Op.ping), hposts, List.map_reverse]
  have hpostEq : multiPost l Op.ping (.slice (preCtxs l Op.ping)) none =
      some (postLoop Op.ping ((l.zip (preCtxs l Op.ping)).reverse) none none) :=
    multiPost_eq _ _ _ _ hne (preCtxs_length l Op.ping)
  have hpostEv : (postLoop Op.ping ((l.zip (preCtxs l Op.ping)).reverse) none none).2 =
      (l.map fun h => Event.post h.id Op.ping).reverse := by
    rw [postLoop_events,
      zip_reverse_map_fst l _ _ (preCtxs_length l Op.ping),
      map_evsOf_const Op.ping l es hposts, flatten_singletons_reverse]
  constructor
  · simp [Conn.Ping, Proxy.getHooks, hamb, hp, hpin, heng, HooksIface.preOp, hpreEq,
      HooksIface.mainOp, hmainEq, HooksIface.postOp, hpostEq, hevnil, hpostEv]
  · rw [hpostEq, Option.map_some']
    rw [postLoop_const Op.ping _ es.reverse hpairs none none]

/-- Witness for `post_error_propagation` on the concrete chain with
failing `postPing` callbacks. -/
theorem post_error_propagation_witness :
    Conn.Ping postErrProxy baseEngine plainCtx =
      some (none, Event.engineCall Op.ping ::
        ([postErrHookA, postErrHookB].map fun h => Event.post h.id Op.ping).reverse) ∧
    (multiPost [postErrHookA, postErrHookB] Op.ping
        (GoVal.slice (preCtxs [postErrHookA, postErrHookB] Op.ping)) none).map Prod.fst =
      some (([some (Err.hook 6), some (Err.hook 5)] :
        List (Option Err)).reverse.foldl firstSome none) :=
  post_error_propagation [postErrHookA, postErrHookB]
    [some (Err.hook 6), some (Err.hook 5)] baseEngine plainCtx postErrProxy
    rfl rfl (by simp) rfl rfl
    (by intro h hm; simp at hm; rcases hm with rfl | rfl <;> rfl)
    (by intro h hm; simp at hm; rcases hm with rfl | rfl <;> rfl)
    rfl

end SqlProxy
